import Mathlib

/-!
Verification of the form-field response resolution engine of the auto-apply
repository (`src/managers/form_manager.py`, class `FormResponseManager`,
with threshold constants from `src/config/config.py`).

The Python source is shallowly embedded:

* Python strings are Lean `String`s; the operations the engine uses
  (`str.lower`, `str.strip`, `str.split`, `'\n'.join`, `in`, `startswith`,
  `endswith`) are re-implemented here over `List Char` so that they are
  fully executable in the kernel and match CPython semantics on ASCII text.
* Python floats are modelled as `ℚ`; all thresholds and weights of
  `config.py` are exact rationals, and every comparison keeps the source's
  strictness (`>` stays `<` flipped, never `≤`).
* The Python dict `self.responses` is an insertion-ordered association list
  with first-key lookup and overwrite-in-place assignment, matching dict
  semantics.
* Calls into external libraries - `difflib.SequenceMatcher(...).ratio()`,
  the NLTK Porter stemmer, and the `re`-module based helpers
  `_extract_keywords` / `_extract_years` (whose internals rest entirely on
  the regex engine and are not needed by any property below) - are
  abstracted as fields of an `Oracles` record: deterministic uninterpreted
  functions the theorems quantify over.
* File-system and network effects are explicit: the JSON-load outcome, the
  success of a file write, and the outcome of the Gemini completion call
  are arguments of the corresponding functions.
-/

namespace AutoApp

/-! ## Python string primitives -/

/-- Model of CPython `str.lower` on a single character (ASCII range, which is
what the engine's inputs use); Lean's `Char.toLower` has exactly this
behaviour. -/
def lowerChar (c : Char) : Char := c.toLower

/-- Model of Python `str.lower`. -/
def pyLower (s : String) : String := String.mk (s.data.map lowerChar)

/-- Characters removed by Python `str.strip()` (ASCII whitespace). -/
def isPyWs (c : Char) : Bool :=
  c = ' ' || c = '\t' || c = '\n' || c = '\r' || c = '\x0b' || c = '\x0c'

/-- Strip on character lists: drop leading and trailing whitespace. -/
def pyStripC (l : List Char) : List Char :=
  ((l.dropWhile isPyWs).reverse.dropWhile isPyWs).reverse

/-- Model of Python `str.strip()`. -/
def pyStrip (s : String) : String := String.mk (pyStripC s.data)

/-- Model of Python `text.split('\n')` on character lists: `[]` maps to
`[[]]` (Python: `"".split('\n') == [""]`). -/
def splitNlC : List Char → List (List Char)
  | [] => [[]]
  | c :: cs =>
    if c = '\n' then [] :: splitNlC cs
    else
      match splitNlC cs with
      | [] => [[c]]
      | l :: ls => (c :: l) :: ls

/-- Model of Python `text.split('\n')`. -/
def splitNl (s : String) : List String := (splitNlC s.data).map String.mk

/-- Model of Python `'\n'.join(lines)` on character lists. -/
def joinNlC : List (List Char) → List Char
  | [] => []
  | [l] => l
  | l :: ls => l ++ '\n' :: joinNlC ls

/-- Model of Python `'\n'.join(lines)`. -/
def joinNl (ls : List String) : String := String.mk (joinNlC (ls.map String.data))

/-- Decides whether the first list is an initial segment of the second. -/
def isPre : List Char → List Char → Bool
  | [], _ => true
  | _ :: _, [] => false
  | a :: as, b :: bs => a = b && isPre as bs

/-- Decides whether `needle` occurs as a contiguous sublist of `hay`. -/
def containsC (needle : List Char) : List Char → Bool
  | [] => needle.isEmpty
  | c :: t => isPre needle (c :: t) || containsC needle t

/-- Model of Python `needle in hay` on strings. -/
def strIn (needle hay : String) : Bool := containsC needle.data hay.data

/-- Model of Python `s.startswith(p)`. -/
def strStarts (s p : String) : Bool := isPre p.data s.data

/-- Model of Python `s.endswith(p)`. -/
def strEnds (s p : String) : Bool := isPre p.data.reverse s.data.reverse

/-- Characters matched by the regex class `\w` (ASCII). -/
def isWordChar (c : Char) : Bool := c.isAlphanum || c = '_'

/-- Accumulator pass splitting a character list into maximal runs of word
characters (the matches of `re.findall(r'\b\w+\b', text)`). -/
def wordTokensC : List Char → List Char → List String
  | [], cur => if cur = [] then [] else [String.mk cur.reverse]
  | c :: cs, cur =>
    if isWordChar c then wordTokensC cs (c :: cur)
    else if cur = [] then wordTokensC cs []
    else String.mk cur.reverse :: wordTokensC cs []

/-- Model of `re.findall(r'\b\w+\b', text)`. -/
def wordTokens (s : String) : List String := wordTokensC s.data []

/-- Model of `re.findall(r'\b\d+\b', text)`: the maximal word-character runs
consisting solely of digits (a digit run bordered by a letter or underscore
has no word boundary and is not matched). -/
def digitTokens (s : String) : List String :=
  (wordTokens s).filter (fun t => t.data.all Char.isDigit)

/-! ## Question Normalizer (`FormResponseManager.clean_question_text`) -/

/-- Loop body of `clean_question_text`: `for line in lines: if line and line
not in unique_lines: unique_lines.append(line)`. -/
def uniqueLines (lines : List String) : List String :=
  lines.foldl (fun acc line => if line ≠ "" ∧ line ∉ acc then acc ++ [line] else acc) []

/-- Embedding of `FormResponseManager.clean_question_text`
(`form_manager.py:751`): empty input is returned as `""`; a text that is
exactly two identical lines collapses to one copy; otherwise the lines are
deduplicated by `uniqueLines` and rejoined with newlines. -/
def cleanQuestionText (question_text : String) : String :=
  if question_text = "" then ""
  else
    let lines := splitNl question_text
    match lines with
    | [l0, l1] => if l0 = l1 then l0 else joinNl (uniqueLines lines)
    | _ => joinNl (uniqueLines lines)

/-- The key normalization used at `form_manager.py:175` and
`form_manager.py:795`: `self.clean_question_text(question_text.lower().strip())`. -/
def normalizeText (s : String) : String := cleanQuestionText (pyStrip (pyLower s))

/-- Reference formulation of line deduplication used to state the corrected
C3 claim: keep a line iff it is non-empty and has not been seen before.
`seen` carries the lines already kept. -/
def dedupNE : List String → List String → List String
  | _, [] => []
  | seen, l :: ls =>
    if l = "" ∨ l ∈ seen then dedupNE seen ls else l :: dedupNE (l :: seen) ls

/-! ## Response Store -/

/-- One record of the response store (`form_manager.py:796`): the values
written by `add_response`. -/
structure StoredResponse where
  answer : String
  options : Option (List String)
  source : String
  timestamp : String
  deriving DecidableEq, Repr

/-- The in-memory `self.responses` dict: insertion-ordered key/record pairs. -/
abbrev Store := List (String × StoredResponse)

/-- Python dict assignment `d[k] = v`: overwrite the first occurrence of the
key in place, else append. -/
def storeSet : Store → String → StoredResponse → Store
  | [], k, v => [(k, v)]
  | (k0, v0) :: rest, k, v =>
    if k0 = k then (k, v) :: rest else (k0, v0) :: storeSet rest k v

/-- Python dict lookup `d.get(k)`: first matching key. -/
def storeLookup : Store → String → Option StoredResponse
  | [], _ => none
  | (k0, v0) :: rest, k => if k0 = k then some v0 else storeLookup rest k

/-- Iteration order of `for saved_question in self.responses`. -/
def storeKeys (s : Store) : List String := s.map Prod.fst

/-- State of a `FormResponseManager`: the in-memory mapping plus the
persisted file contents (`none` when the file never held a valid mapping). -/
structure FMState where
  responses : Store
  fileContents : Option Store
  deriving Repr

/-- Outcome of opening and JSON-parsing the responses file in
`_load_responses` (`form_manager.py:118`): `none` models
`FileNotFoundError`, `some (.error ())` a `json.JSONDecodeError` (invalid
JSON), `some (.ok s)` a successful parse. -/
def loadResponses : Option (Except Unit Store) → Store
  | none => []
  | some (Except.error _) => []
  | some (Except.ok s) => s

/-- Embedding of `_save_responses` (`form_manager.py:144`): a failed write
(`writeOk = false`) is caught and logged; the in-memory state is untouched
either way. -/
def saveResponses (st : FMState) (writeOk : Bool) : FMState :=
  if writeOk then { st with fileContents := some st.responses } else st

/-- Embedding of `add_response` (`form_manager.py:778`): normalize the
question, overwrite-or-insert the record, then save. -/
def addResponse (st : FMState) (question_text answer : String)
    (options : Option (List String)) (source timestamp : String)
    (writeOk : Bool) : FMState :=
  saveResponses
    { st with
      responses := storeSet st.responses (normalizeText question_text)
        ⟨answer, options, source, timestamp⟩ }
    writeOk

/-! ## Configuration constants (`config.py`) -/

/-- `MATCH_THRESHOLDS["KEYWORD_MATCH_THRESHOLD"]` (config.py:473). -/
def KEYWORD_MATCH_THRESHOLD : ℚ := 1/2

/-- `MATCH_THRESHOLDS["COMBINED_SCORE_THRESHOLD"]` (config.py:474). -/
def COMBINED_SCORE_THRESHOLD : ℚ := 3/5

/-- `MATCH_THRESHOLDS["FUZZY_MATCH_THRESHOLD"]` (config.py:475). -/
def FUZZY_MATCH_THRESHOLD : ℚ := 4/5

/-- `MATCH_WEIGHTS["KEYWORD_WEIGHT"]` (config.py:479). -/
def KEYWORD_WEIGHT : ℚ := 7/10

/-- `MATCH_WEIGHTS["STRING_WEIGHT"]` (config.py:480). -/
def STRING_WEIGHT : ℚ := 3/10

/-- `OPTION_MATCH_THRESHOLDS["SEMANTIC_MATCH"]` (config.py:514). -/
def SEMANTIC_MATCH_THRESHOLD : ℚ := 2/5

/-- `OPTION_MATCH_THRESHOLDS["FUZZY_MATCH"]` (config.py:515). -/
def OPTION_FUZZY_THRESHOLD : ℚ := 1/2

/-- `SEMANTIC_SIMILARITY_WEIGHTS` (config.py:519). -/
def STEMMED_OVERLAP_WEIGHT : ℚ := 1/2

/-- `SEMANTIC_SIMILARITY_WEIGHTS["CONCEPT_OVERLAP"]`. -/
def CONCEPT_OVERLAP_WEIGHT : ℚ := 3/10

/-- `SEMANTIC_SIMILARITY_WEIGHTS["SEQUENCE_SIMILARITY"]`. -/
def SEQUENCE_SIMILARITY_WEIGHT : ℚ := 1/5

/-- `QUESTION_TYPES` (config.py:489), in dict iteration order. -/
def QUESTION_TYPES : List (String × List String) :=
  [("YES_NO", ["yes", "no", "y/n", "yes/no", "agree", "consent", "confirm", "accept"]),
   ("DEMOGRAPHIC", ["gender", "ethnicity", "race", "veteran", "disability", "orientation",
                    "demographic", "diversity", "identity", "transgender", "lgbtqia"]),
   ("AUTHORIZATION", ["authorized", "authorization", "eligible", "eligibility",
                      "sponsorship", "visa", "citizenship", "legally", "green card"]),
   ("EXPERIENCE", ["experience", "year", "skill", "expertise", "proficiency"]),
   ("LOCATION", ["where", "location", "city", "state", "country", "address", "remote", "onsite"])]

/-- `KEY_CONCEPT_PATTERNS` (config.py:525), in dict iteration order. -/
def KEY_CONCEPT_PATTERNS : List (String × List String) :=
  [("AFFIRMATIVE", ["yes", "agree", "true", "confirm", "accept", "approved", "acknowledged"]),
   ("NEGATIVE", ["no", "disagree", "false", "reject", "decline", "denied", "not approved"]),
   ("PRIVACY", ["prefer not", "decline to", "not specify", "private", "confidential",
                "not disclose", "withhold", "rather not say"]),
   ("LOCATION", ["onsite", "on-site", "remote", "hybrid", "in-office", "work from home", "wfh"]),
   ("CURRENT", ["already", "currently", "presently", "now", "at the moment", "existing"])]

/-- `FORM_STOP_WORDS` (config.py:321). -/
def FORM_STOP_WORDS : List String :=
  ["a", "an", "the", "and", "or", "but", "if", "because", "as", "what",
   "which", "this", "that", "these", "those", "then", "just", "so", "than",
   "such", "both", "through", "about", "into", "between", "after", "since",
   "without", "within", "along", "across", "behind", "beyond", "plus",
   "except", "up", "out", "around", "down", "off", "above", "below",
   "to", "from", "in", "on", "by", "at", "for", "with",
   "do", "does", "did", "have", "has", "had", "am", "is", "are", "was", "were",
   "be", "been", "being", "can", "could", "shall", "should", "will", "would",
   "may", "might", "must", "get", "gets", "got", "make", "makes", "made",
   "of", "you", "your", "we", "our", "i", "me", "my", "he", "him", "his",
   "she", "her", "hers", "they", "them", "their", "theirs", "it", "its",
   "many", "much", "few", "some", "all", "any", "each", "every",
   "who", "whom", "whose", "when", "where", "why", "how",
   "very", "really", "quite", "simply", "now", "here", "there", "always",
   "never", "ever", "again", "already", "soon", "too", "also", "only",
   "please", "following", "would", "like", "tell", "us", "let", "know",
   "provide", "submit", "describe", "explain", "list", "share", "select",
   "choose", "check", "enter", "confirm", "answer", "question", "option",
   "optional", "required", "prefer", "statement"]

/-! ## Oracles for external-library behaviour -/

/-- Deterministic abstractions of the external-library calls the engine
makes. `stemAvailable` models `self.stemmer` being set (NLTK importable and
stemming enabled); `seqSim a b` models
`difflib.SequenceMatcher(None, a, b).ratio()`; `extractKeywords` models
`FormResponseManager._extract_keywords` and `extractYears` models
`FormResponseManager._extract_years`, both of which are built on the Python
regex engine and are uninterpreted here (no claim depends on their
internals; every theorem below holds for every instantiation). -/
structure Oracles where
  stemAvailable : Bool
  stem : String → String
  seqSim : String → String → ℚ
  extractKeywords : String → List String
  extractYears : String → Option Nat

/-- Python truthiness of an optional string argument (`if error:`). -/
def truthyStr : Option String → Bool
  | none => false
  | some s => s ≠ ""

/-- Python truthiness of an optional list argument (`if options:`). -/
def truthyList : Option (List String) → Bool
  | none => false
  | some l => l ≠ []

/-! ## Matcher internals (`find_best_match` and helpers) -/

/-- Embedding of `_determine_question_type` (`form_manager.py:503`): first
question-type whose indicator list has a substring hit, else `"UNKNOWN"`. -/
def determineQuestionType (question_text : String) : String :=
  let t := pyLower question_text
  match QUESTION_TYPES.find? (fun p => p.2.any (fun ind => strIn ind t)) with
  | some p => p.1
  | none => "UNKNOWN"

/-- Per-keyword weight of `_calculate_keyword_similarity`
(`form_manager.py:390` and `form_manager.py:416`): base 1.0, category tags
2.0, question-type tags 2.5, duration tags 3.0 (later tests override
earlier ones, as the sequential `if`s in the source do). -/
def keywordWeight (kw : String) : ℚ :=
  let w : ℚ := 1
  let w := if strStarts kw "category_" then 2 else w
  let w := if strEnds kw "_question" then 5/2 else w
  let w := if strEnds kw "years" || strEnds kw "months" then 3 else w
  w

/-- Embedding of `_calculate_keyword_similarity` (`form_manager.py:364`):
weighted Jaccard over keyword multisets - matching keywords contribute
`weight * min(count, count)` and the denominator sums
`weight * max(count, count)` over the union. -/
def calcKeywordSimilarity (keywords1 keywords2 : List String) : ℚ :=
  if keywords1 = [] ∨ keywords2 = [] then 0
  else
    let weighted_matches :=
      ((keywords1.dedup.filter (fun k => k ∈ keywords2)).map
        (fun k => keywordWeight k * min (keywords1.count k) (keywords2.count k))).sum
    let total_weight :=
      (((keywords1 ++ keywords2).dedup).map
        (fun k => keywordWeight k * max (keywords1.count k) (keywords2.count k))).sum
    if 0 < total_weight then weighted_matches / total_weight else 0

/-- Embedding of `_count_job_keyword_matches` (`form_manager.py:563`). -/
def countJobKeywordMatches (text : String) (job_keywords : List String) : Nat :=
  let t := pyLower text
  (job_keywords.filter (fun k => strIn k t)).length

/-- Embedding of `_apply_context_adjustments` (`form_manager.py:440`).
The length-ratio division is over `ℚ` (0 when both lengths are 0, where
CPython would raise `ZeroDivisionError` - unreachable for store keys,
which are non-empty). `extractYears` results of 0 are falsy in Python and
skipped, as in the source. -/
def applyContextAdjustments (O : Oracles) (jobDescription : Option String)
    (score : ℚ) (question_text saved_question : String)
    (question_type : String) : ℚ :=
  let adjusted := score
  let saved_question_type := determineQuestionType saved_question
  let adjusted :=
    if question_type = saved_question_type ∧ question_type ≠ "UNKNOWN"
    then adjusted + 1/10 else adjusted
  let length_r : ℚ :=
    min (question_text.length : ℚ) (saved_question.length : ℚ) /
      max (question_text.length : ℚ) (saved_question.length : ℚ)
  let adjusted := if length_r > 4/5 then adjusted + 1/20 else adjusted
  let adjusted :=
    if truthyStr jobDescription then
      let job_keywords := O.extractKeywords (jobDescription.getD "")
      let q1 := countJobKeywordMatches question_text job_keywords
      let q2 := countJobKeywordMatches saved_question job_keywords
      if 0 < q1 ∧ 0 < q2 then
        let job_context_similarity : ℚ := (min q1 q2 : ℚ) / (max q1 q2 : ℚ)
        if job_context_similarity > 7/10 then adjusted + 1/10 else adjusted
      else adjusted
    else adjusted
  let adjusted :=
    if question_type = "EXPERIENCE" then
      match O.extractYears question_text, O.extractYears saved_question with
      | some y1, some y2 =>
        if y1 ≠ 0 ∧ y2 ≠ 0 then
          if ((y1 : Int) - y2).natAbs ≤ 1 then adjusted + 3/20
          else if ((y1 : Int) - y2).natAbs ≤ 3 then adjusted + 1/20
          else adjusted
        else adjusted
      | _, _ => adjusted
    else adjusted
  min adjusted 1

/-- Loop body of the keyword-scoring pass of `find_best_match`
(`form_manager.py:200`): `none` when either keyword list is empty (the
`continue`), else the adjusted combined score of the saved question. -/
def candidateScore (O : Oracles) (jobDescription : Option String)
    (question_keywords : List String) (question_text saved_question : String)
    (question_type : String) : Option ℚ :=
  let saved_keywords := O.extractKeywords (pyLower saved_question)
  if saved_keywords = [] ∨ question_keywords = [] then none
  else
    let keyword_similarity := calcKeywordSimilarity question_keywords saved_keywords
    let string_similarity := O.seqSim question_text (pyLower saved_question)
    let combined_score :=
      keyword_similarity * KEYWORD_WEIGHT + string_similarity * STRING_WEIGHT
    some (applyContextAdjustments O jobDescription combined_score
      question_text saved_question question_type)

/-- The `potential_matches` list of `find_best_match` (`form_manager.py:198`):
saved questions whose adjusted combined score strictly exceeds
`KEYWORD_MATCH_THRESHOLD`, in store order. -/
def potentialMatches (O : Oracles) (jobDescription : Option String)
    (responses : Store) (question_text question_type : String) :
    List (String × ℚ) :=
  let question_keywords := O.extractKeywords question_text
  (storeKeys responses).filterMap (fun saved_question =>
    match candidateScore O jobDescription question_keywords question_text
        saved_question question_type with
    | some score =>
      if score > KEYWORD_MATCH_THRESHOLD then some (saved_question, score) else none
    | none => none)

/-- The semantic acceptance step of `find_best_match` (`form_manager.py:227`):
stable sort of the potential matches by score descending (Python list.sort
is stable), accept the top one only if its score strictly exceeds
`COMBINED_SCORE_THRESHOLD`. Returns the accepted saved-question key. -/
def semanticStage (O : Oracles) (jobDescription : Option String)
    (responses : Store) (question_text question_type : String) : Option String :=
  match List.insertionSort (fun a b : String × ℚ => b.2 ≤ a.2)
      (potentialMatches O jobDescription responses question_text question_type) with
  | [] => none
  | (best_match, score) :: _ =>
    if score > COMBINED_SCORE_THRESHOLD then some best_match else none

/-- The fuzzy fallback loop of `find_best_match` (`form_manager.py:253`):
track the best ratio strictly above `FUZZY_MATCH_THRESHOLD`; first
strictly-greater ratio wins ties. Returns the accepted saved-question key. -/
def fuzzyStage (O : Oracles) (responses : Store) (question_text : String) :
    Option String :=
  ((storeKeys responses).foldl
    (fun acc saved_question =>
      let r := O.seqSim question_text (pyLower saved_question)
      if r > FUZZY_MATCH_THRESHOLD ∧ r > acc.1 then (r, some saved_question) else acc)
    ((0 : ℚ), (none : Option String))).2

/-! ## Option Resolver (`_find_closest_option` and helpers) -/

/-- Result of `_process_text_for_semantic_matching` (`form_manager.py:653`). -/
structure ProcessedText where
  stemmed_words : List String
  tokens : List String
  key_concepts : List String
  deriving Repr

/-- Embedding of `_process_text_for_semantic_matching`
(`form_manager.py:653`): word tokens, stop-word-filtered stemmed content
words, and key-concept tags (concept categories hit by a substring
indicator plus a `numeric_<n>` tag per standalone integer). The concept set
is modelled as a list read up to deduplication. -/
def processTextForSemanticMatching (O : Oracles) (text : String) : ProcessedText :=
  let tokens := wordTokens text
  let content_words := tokens.filter (fun w => w ∉ FORM_STOP_WORDS)
  let stemmed_words := if O.stemAvailable then content_words.map O.stem else content_words
  let key_concepts :=
    (KEY_CONCEPT_PATTERNS.filterMap (fun p =>
      if p.2.any (fun pat => strIn pat text) then some (pyLower p.1) else none)) ++
    (digitTokens text).map (fun num => "numeric_" ++ num)
  ⟨stemmed_words, tokens, key_concepts⟩

/-- Jaccard ratio of two lists read as finite sets. -/
def jaccard (l1 l2 : List String) : ℚ :=
  ((l1.dedup.filter (fun x => x ∈ l2)).length : ℚ) / (((l1 ++ l2).dedup).length : ℚ)

/-- Embedding of `_calculate_semantic_similarity` (`form_manager.py:702`):
weighted sum of stemmed-word Jaccard, key-concept Jaccard and the sequence
similarity of the space-joined token lists. -/
def calcSemanticSimilarity (O : Oracles) (t1 t2 : ProcessedText) : ℚ :=
  let stemmed_overlap :=
    if t1.stemmed_words ≠ [] ∧ t2.stemmed_words ≠ []
    then jaccard t1.stemmed_words t2.stemmed_words else 0
  let concept_overlap :=
    if t1.key_concepts.dedup ≠ [] ∧ t2.key_concepts.dedup ≠ []
    then jaccard t1.key_concepts t2.key_concepts else 0
  let sequence_similarity :=
    O.seqSim (String.intercalate " " t1.tokens) (String.intercalate " " t2.tokens)
  stemmed_overlap * STEMMED_OVERLAP_WEIGHT +
    concept_overlap * CONCEPT_OVERLAP_WEIGHT +
    sequence_similarity * SEQUENCE_SIMILARITY_WEIGHT

/-- Embedding of `_find_closest_option` (`form_manager.py:583`): empty
option list returns the answer unchanged; otherwise exact case-insensitive
match, then (when a stemmer is present) best semantic score strictly above
`SEMANTIC_MATCH_THRESHOLD`, then best fuzzy ratio strictly above
`OPTION_FUZZY_THRESHOLD`, then containment either way, else `none`. -/
def findClosestOption (O : Oracles) (answer : String) (options : List String)
    (question_type : String) : Option String :=
  if options = [] then some answer
  else
    let answer_lower := pyStrip (pyLower answer)
    match options.find? (fun option => pyStrip (pyLower option) = answer_lower) with
    | some option => some option
    | none =>
      let semantic_result :=
        if O.stemAvailable then
          let answer_tokens := processTextForSemanticMatching O answer_lower
          let best := options.foldl
            (fun acc option =>
              let option_tokens :=
                processTextForSemanticMatching O (pyStrip (pyLower option))
              let similarity := calcSemanticSimilarity O answer_tokens option_tokens
              if similarity > acc.1 then (similarity, some option) else acc)
            ((0 : ℚ), (none : Option String))
          if best.1 > SEMANTIC_MATCH_THRESHOLD then best.2 else none
        else none
      match semantic_result with
      | some option => some option
      | none =>
        let fuzzy_best := options.foldl
          (fun acc option =>
            let r := O.seqSim answer_lower (pyLower option)
            if r > acc.1 then (r, some option) else acc)
          ((0 : ℚ), (none : Option String))
        match (if fuzzy_best.1 > OPTION_FUZZY_THRESHOLD then fuzzy_best.2 else none) with
        | some option => some option
        | none =>
          options.find? (fun option =>
            let option_lower := pyStrip (pyLower option)
            strIn answer_lower option_lower || strIn option_lower answer_lower)

/-! ## `find_best_match` (`form_manager.py:153`) -/

/-- Answer derivation shared by the three acceptance sites of
`find_best_match`: look the key up, then either resolve against the
supplied options or return the stored answer verbatim. -/
def answerFromKey (O : Oracles) (responses : Store)
    (options : Option (List String)) (question_type key : String) :
    Option String :=
  match storeLookup responses key with
  | some record =>
    if truthyList options
    then findClosestOption O record.answer (options.getD []) question_type
    else some record.answer
  | none => none

/-- Embedding of `find_best_match` (`form_manager.py:153`): a truthy error
context short-circuits to `none`; otherwise normalize, try the exact key,
then the semantic stage, then the fuzzy stage. -/
def findBestMatch (O : Oracles) (jobDescription : Option String)
    (responses : Store) (question_text : String)
    (options : Option (List String)) (error : Option String) : Option String :=
  if truthyStr error then none
  else
    let qt := normalizeText question_text
    let question_type := determineQuestionType qt
    match storeLookup responses qt with
    | some record =>
      if truthyList options
      then findClosestOption O record.answer (options.getD []) question_type
      else some record.answer
    | none =>
      match semanticStage O jobDescription responses qt question_type with
      | some best_match => answerFromKey O responses options question_type best_match
      | none =>
        match fuzzyStage O responses qt with
        | some best_match => answerFromKey O responses options question_type best_match
        | none => none

/-! ## AI Fallback Generator (`get_gemini_response`, `form_manager.py:804`) -/

/-- Embedding of `get_gemini_response`: `completion` is the outcome of the
prompt build plus `client.models.generate_content` call (`.error` models
any exception inside the `try` block, caught at `form_manager.py:850` with
`return None`). On success the stripped answer is persisted when `saves`
with source `"gemini"`, then resolved against the options when a truthy
option list is supplied. Returns the new manager state and the returned
value. -/
def getGeminiResponse (O : Oracles) (completion : Except Unit String)
    (st : FMState) (question_text : String) (options : Option (List String))
    (error : Option String) (saves : Bool) (timestamp : String)
    (writeOk : Bool) : FMState × Option String :=
  match completion with
  | Except.error _ => (st, none)
  | Except.ok response_text =>
    let answer := pyStrip response_text
    let st1 :=
      if saves then addResponse st question_text answer options "gemini" timestamp writeOk
      else st
    if truthyList options then
      (st1, findClosestOption O answer (options.getD [])
        (determineQuestionType question_text))
    else (st1, some answer)

/-! ## Concrete fixtures used by the witness theorems -/

/-- Trivial oracle instantiation: no stemmer, zero similarity everywhere,
no keywords, no years. -/
def oracleZero : Oracles :=
  ⟨false, id, fun _ _ => 0, fun _ => [], fun _ => none⟩

/-- Oracle tuned so that the one stored key of `storeC6` scores exactly
`COMBINED_SCORE_THRESHOLD`: keyword similarity 1/2 and string similarity
5/6 give `(1/2) * (7/10) + (5/6) * (3/10) = 3/5`. -/
def oracleSem : Oracles :=
  ⟨false, id, fun _ _ => 5/6,
   fun s => if s = "q" then ["a"] else ["a", "b"], fun _ => none⟩

/-- Oracle whose string similarity is exactly `FUZZY_MATCH_THRESHOLD`
everywhere. -/
def oracleFuzz : Oracles :=
  ⟨false, id, fun _ _ => FUZZY_MATCH_THRESHOLD, fun _ => [], fun _ => none⟩

/-- A manually entered store record. -/
def sampleRecord : StoredResponse := ⟨"Yes", none, "manual", "2024-01-01 00:00:00"⟩

/-- A one-record store keyed by an already-normalized question. -/
def sampleStore : Store := [("are you legal?", sampleRecord)]

/-- A one-record store whose key shares no indicators with `"q"` and has a
very different length, so no context bonus applies. -/
def storeC6 : Store := [("k0123456789", sampleRecord)]

/-! ## Store lemmas -/

/-- Saving never changes the in-memory mapping, whether or not the file
write succeeds. -/
theorem saveResponses_responses (st : FMState) (w : Bool) :
    (saveResponses st w).responses = st.responses := by
  unfold saveResponses
  split <;> rfl

/-- Looking up a key right after assigning it returns the assigned record. -/
theorem storeLookup_storeSet_self (s : Store) (k : String) (v : StoredResponse) :
    storeLookup (storeSet s k v) k = some v := by
  induction s with
  | nil => simp [storeSet, storeLookup]
  | cons hd tl ih =>
    obtain ⟨k0, v0⟩ := hd
    by_cases h : k0 = k
    · simp [storeSet, h, storeLookup]
    · simp [storeSet, h, storeLookup, ih]

/-- Key list after a dict assignment: unchanged when the key was present,
extended at the end otherwise. -/
theorem storeKeys_storeSet (s : Store) (k : String) (v : StoredResponse) :
    storeKeys (storeSet s k v) =
      if k ∈ storeKeys s then storeKeys s else storeKeys s ++ [k] := by
  induction s with
  | nil => simp [storeSet, storeKeys]
  | cons hd tl ih =>
    obtain ⟨k0, v0⟩ := hd
    by_cases h : k0 = k
    · subst h
      simp [storeSet, storeKeys]
    · have hne : ¬(k = k0) := fun hk => h hk.symm
      simp [storeSet, h, storeKeys] at ih ⊢
      rw [ih]
      by_cases hm : k ∈ List.map Prod.fst tl <;> simp [hm, hne]

/-- A dict assignment to an existing key keeps the store size. -/
theorem length_storeSet_of_mem (s : Store) (k : String) (v : StoredResponse)
    (h : k ∈ storeKeys s) : (storeSet s k v).length = s.length := by
  induction s with
  | nil => simp [storeKeys] at h
  | cons hd tl ih =>
    obtain ⟨k0, v0⟩ := hd
    by_cases hk : k0 = k
    · simp [storeSet, hk]
    · have : k ∈ storeKeys tl := by
        simp [storeKeys] at h ⊢
        rcases h with h | h
        · exact absurd h.symm hk
        · exact h
      simp [storeSet, hk, ih this]

/-- The assigned key is always present afterwards. -/
theorem mem_storeKeys_storeSet (s : Store) (k : String) (v : StoredResponse) :
    k ∈ storeKeys (storeSet s k v) := by
  rw [storeKeys_storeSet]
  by_cases h : k ∈ storeKeys s <;> simp [h]

/-- Dict assignment preserves key uniqueness. -/
theorem nodup_storeKeys_storeSet (s : Store) (k : String) (v : StoredResponse)
    (h : (storeKeys s).Nodup) : (storeKeys (storeSet s k v)).Nodup := by
  rw [storeKeys_storeSet]
  by_cases hm : k ∈ storeKeys s
  · simpa [hm] using h
  · simp only [hm, if_false]
    rw [List.nodup_append]
    refine ⟨h, List.nodup_singleton k, ?_⟩
    intro a ha hak
    rw [List.mem_singleton] at hak
    subst hak
    exact hm ha

/-! ## Claim theorems -/

/-- C7: writing the same question twice via `add_response` yields exactly
one record for the normalized key - keys stay unique, the second write
overwrites in place (the key list is unchanged, the lookup returns the
second record) and the store size is unchanged by the second write. -/
theorem add_response_idempotent_write (st : FMState) (q a1 a2 : String)
    (o1 o2 : Option (List String)) (s1 s2 t1 t2 : String) (w1 w2 : Bool)
    (h : (storeKeys st.responses).Nodup) :
    (storeKeys (addResponse (addResponse st q a1 o1 s1 t1 w1) q a2 o2 s2 t2 w2).responses).Nodup ∧
    storeKeys (addResponse (addResponse st q a1 o1 s1 t1 w1) q a2 o2 s2 t2 w2).responses
      = storeKeys (addResponse st q a1 o1 s1 t1 w1).responses ∧
    (addResponse (addResponse st q a1 o1 s1 t1 w1) q a2 o2 s2 t2 w2).responses.length
      = (addResponse st q a1 o1 s1 t1 w1).responses.length ∧
    storeLookup (addResponse (addResponse st q a1 o1 s1 t1 w1) q a2 o2 s2 t2 w2).responses
      (normalizeText q) = some ⟨a2, o2, s2, t2⟩ := by
  have e1 : (addResponse st q a1 o1 s1 t1 w1).responses
      = storeSet st.responses (normalizeText q) ⟨a1, o1, s1, t1⟩ := by
    simp only [addResponse, saveResponses_responses]
  have e2 : (addResponse (addResponse st q a1 o1 s1 t1 w1) q a2 o2 s2 t2 w2).responses
      = storeSet (storeSet st.responses (normalizeText q) ⟨a1, o1, s1, t1⟩)
          (normalizeText q) ⟨a2, o2, s2, t2⟩ := by
    simp only [addResponse, saveResponses_responses]
  have hmem : normalizeText q ∈ storeKeys (storeSet st.responses (normalizeText q) ⟨a1, o1, s1, t1⟩) :=
    mem_storeKeys_storeSet _ _ _
  refine ⟨?_, ?_, ?_, ?_⟩
  · rw [e2]
    exact nodup_storeKeys_storeSet _ _ _ (nodup_storeKeys_storeSet _ _ _ h)
  · rw [e1, e2, storeKeys_storeSet, if_pos hmem]
  · rw [e1, e2]
    exact length_storeSet_of_mem _ _ _ hmem
  · rw [e2]
    exact storeLookup_storeSet_self _ _ _

/-- Witness for C7 at a concrete input. -/
theorem add_response_idempotent_write_witness :
    (storeKeys (⟨[], none⟩ : FMState).responses).Nodup ∧
    storeLookup (addResponse (addResponse ⟨[], none⟩ "Notice period?" "2 weeks" none "manual" "t1" true)
        "Notice period?" "1 month" none "manual" "t2" true).responses
      (normalizeText "Notice period?") = some ⟨"1 month", none, "manual", "t2"⟩ ∧
    (addResponse (addResponse ⟨[], none⟩ "Notice period?" "2 weeks" none "manual" "t1" true)
        "Notice period?" "1 month" none "manual" "t2" true).responses.length
      = (addResponse ⟨[], none⟩ "Notice period?" "2 weeks" none "manual" "t1" true).responses.length :=
  ⟨by decide,
   (add_response_idempotent_write ⟨[], none⟩ "Notice period?" "2 weeks" "1 month"
      none none "manual" "manual" "t1" "t2" true true (by decide)).2.2.2,
   (add_response_idempotent_write ⟨[], none⟩ "Notice period?" "2 weeks" "1 month"
      none none "manual" "manual" "t1" "t2" true true (by decide)).2.2.1⟩

/-- C8: initializing against a file whose contents are invalid JSON yields
the empty in-memory mapping (the decode error is absorbed, never raised),
and a subsequent `add_response` whose file write fails still records the
new entry in memory while leaving the file contents untouched. -/
theorem store_survives_corrupt_file (q a : String) (o : Option (List String))
    (src ts : String) (fileOrig : Option Store) :
    loadResponses (some (Except.error ())) = [] ∧
    storeLookup (addResponse ⟨loadResponses (some (Except.error ())), fileOrig⟩
        q a o src ts false).responses (normalizeText q) = some ⟨a, o, src, ts⟩ ∧
    (addResponse ⟨loadResponses (some (Except.error ())), fileOrig⟩
        q a o src ts false).fileContents = fileOrig := by
  refine ⟨rfl, ?_, rfl⟩
  have := storeLookup_storeSet_self [] (normalizeText q) ⟨a, o, src, ts⟩
  simpa [addResponse, saveResponses, loadResponses] using this

/-- C10: the Option Resolver called with an empty options list returns the
answer itself, unchanged. -/
theorem find_closest_option_empty_options (O : Oracles) (answer question_type : String) :
    findClosestOption O answer [] question_type = some answer := by
  unfold findClosestOption
  simp

/-- C5: a non-empty error context makes the Matcher return `none`
immediately, before any store access. -/
theorem error_context_bypass (O : Oracles) (jd : Option String) (responses : Store)
    (q : String) (opts : Option (List String)) (e : String) (h : e ≠ "") :
    findBestMatch O jd responses q opts (some e) = none := by
  unfold findBestMatch
  simp [truthyStr, h]

/-- Witness for C5: the bypass fires even though an exact normalized key
for the question is in the store. -/
theorem error_context_bypass_witness :
    ("stale answer" ≠ "") ∧
    storeLookup sampleStore (normalizeText "are you legal?") = some sampleRecord ∧
    findBestMatch oracleZero none sampleStore "are you legal?" none (some "stale answer") = none :=
  ⟨by decide, by decide,
   error_context_bypass oracleZero none sampleStore "are you legal?" none "stale answer" (by decide)⟩

/-- C4: with no error context and no options, an exact normalized-key hit
returns that record's stored answer verbatim, independently of every other
record in the store. -/
theorem exact_match_precedence (O : Oracles) (jd : Option String) (responses : Store)
    (q : String) (record : StoredResponse)
    (h : storeLookup responses (normalizeText q) = some record) :
    findBestMatch O jd responses q none none = some record.answer := by
  unfold findBestMatch
  simp [truthyStr, truthyList, h]

/-- Witness for C4 at a concrete store and question. -/
theorem exact_match_precedence_witness :
    storeLookup sampleStore (normalizeText "Are You LEGAL?") = some sampleRecord ∧
    findBestMatch oracleZero none sampleStore "Are You LEGAL?" none none = some "Yes" :=
  ⟨by decide,
   exact_match_precedence oracleZero none sampleStore "Are You LEGAL?" sampleRecord (by decide)⟩

/-- C1 counterexample: with the non-empty options list `["Yes", "No"]`, a
failing completion call makes `get_gemini_response` return `None` - not
the first listed option as the claim states. -/
theorem gemini_none_on_failure_cex :
    (["Yes", "No"] : List String) ≠ [] ∧
    (getGeminiResponse oracleZero (Except.error ()) ⟨[], none⟩ "q"
      (some ["Yes", "No"]) none true "t" true).2 = none ∧
    (none : Option String) ≠ some "Yes" :=
  ⟨by decide, rfl, by decide⟩

/-- C1 amended: with a non-empty options list, `get_gemini_response`
returns `None` when the completion call fails, and on success returns the
Option Resolver's result on the stripped answer, which may itself be
`None`; the first-listed-option fallback is applied by the calling form
handler, not by `get_gemini_response`. -/
theorem gemini_failure_and_resolution (O : Oracles) (st : FMState) (q : String)
    (opts : List String) (err : Option String) (saves : Bool) (ts : String)
    (w : Bool) (h : opts ≠ []) :
    (getGeminiResponse O (Except.error ()) st q (some opts) err saves ts w).2 = none ∧
    ∀ raw, (getGeminiResponse O (Except.ok raw) st q (some opts) err saves ts w).2 =
      findClosestOption O (pyStrip raw) opts (determineQuestionType q) := by
  constructor
  · rfl
  · intro raw
    unfold getGeminiResponse
    simp [truthyList, h]

/-- Witness for the amended C1 at concrete inputs. -/
theorem gemini_failure_and_resolution_witness :
    (["Yes", "No"] : List String) ≠ [] ∧
    (getGeminiResponse oracleZero (Except.error ()) ⟨[], none⟩ "q"
      (some ["Yes", "No"]) none true "t" true).2 = none ∧
    (getGeminiResponse oracleZero (Except.ok "maybe") ⟨[], none⟩ "q"
      (some ["Yes", "No"]) none true "t" true).2 =
      findClosestOption oracleZero (pyStrip "maybe") ["Yes", "No"]
        (determineQuestionType "q") :=
  ⟨by decide,
   (gemini_failure_and_resolution oracleZero ⟨[], none⟩ "q" ["Yes", "No"]
      none true "t" true (by decide)).1,
   (gemini_failure_and_resolution oracleZero ⟨[], none⟩ "q" ["Yes", "No"]
      none true "t" true (by decide)).2 "maybe"⟩

/-- C2 counterexample: the record persisted by `get_gemini_response`
carries the provenance value `"gemini"`, which is neither `"ai-generated"`
nor `"manual"`. -/
theorem gemini_source_tag_cex :
    storeLookup (getGeminiResponse oracleZero (Except.ok "42") ⟨[], none⟩
        "How many?" none none true "t" true).1.responses
      (normalizeText "How many?") = some ⟨"42", none, "gemini", "t"⟩ ∧
    ("gemini" : String) ≠ "ai-generated" ∧ ("gemini" : String) ≠ "manual" := by
  refine ⟨by decide, by decide, by decide⟩

/-- C2 amended: every record `get_gemini_response` persists carries the
provenance value `"gemini"` (so stored sources are `"manual"` - the
default of `add_response` - or `"gemini"`, never `"ai-generated"`). -/
theorem gemini_persists_source_gemini (O : Oracles) (st : FMState) (q raw : String)
    (opts : Option (List String)) (err : Option String) (ts : String) (w : Bool) :
    storeLookup (getGeminiResponse O (Except.ok raw) st q opts err true ts w).1.responses
      (normalizeText q) = some ⟨pyStrip raw, opts, "gemini", ts⟩ := by
  simp only [getGeminiResponse]
  split <;>
    simp [addResponse, saveResponses_responses, storeLookup_storeSet_self]

/-- The fuzzy loop of `find_best_match` never updates its accumulator when
every ratio is at or below the threshold. -/
theorem fuzzy_fold_fixed (O : Oracles) (qt : String) (l : List String)
    (h : ∀ k ∈ l, O.seqSim qt (pyLower k) ≤ FUZZY_MATCH_THRESHOLD) :
    ∀ acc : ℚ × Option String,
      List.foldl (fun acc saved_question =>
        let r := O.seqSim qt (pyLower saved_question)
        if r > FUZZY_MATCH_THRESHOLD ∧ r > acc.1 then (r, some saved_question) else acc)
        acc l = acc := by
  induction l with
  | nil => intro acc; rfl
  | cons k t ih =>
    intro acc
    have hk := h k (List.mem_cons_self k t)
    have hcond : ¬(O.seqSim qt (pyLower k) > FUZZY_MATCH_THRESHOLD ∧
        O.seqSim qt (pyLower k) > acc.1) := by
      intro hc
      exact absurd hc.1 (not_lt.mpr hk)
    have hstep : (let r := O.seqSim qt (pyLower k)
        if r > FUZZY_MATCH_THRESHOLD ∧ r > acc.1 then (r, some k) else acc) = acc :=
      if_neg hcond
    rw [List.foldl_cons, hstep]
    exact ih (fun x hx => h x (List.mem_cons_of_mem k hx)) acc

/-- C6: both acceptance comparisons of the Matcher are strict. If every
potential match scores at most `COMBINED_SCORE_THRESHOLD` (0.6) - in
particular when the top adjusted combined score is exactly 0.6 - the
semantic stage accepts nothing; and if every stored key's fuzzy ratio is
at most `FUZZY_MATCH_THRESHOLD` (0.8) - in particular exactly 0.8 - the
fuzzy stage accepts nothing. -/
theorem threshold_boundary_strict (O : Oracles) (jd : Option String)
    (responses : Store) (qt question_type : String) :
    ((∀ p ∈ potentialMatches O jd responses qt question_type,
        p.2 ≤ COMBINED_SCORE_THRESHOLD) →
      semanticStage O jd responses qt question_type = none) ∧
    ((∀ k ∈ storeKeys responses, O.seqSim qt (pyLower k) ≤ FUZZY_MATCH_THRESHOLD) →
      fuzzyStage O responses qt = none) := by
  constructor
  · intro h
    unfold semanticStage
    cases hs : List.insertionSort (fun a b : String × ℚ => b.2 ≤ a.2)
        (potentialMatches O jd responses qt question_type) with
    | nil => rfl
    | cons hd tl =>
      obtain ⟨best, score⟩ := hd
      have hmem : (best, score) ∈ potentialMatches O jd responses qt question_type := by
        have hperm := List.perm_insertionSort (fun a b : String × ℚ => b.2 ≤ a.2)
          (potentialMatches O jd responses qt question_type)
        refine hperm.mem_iff.mp ?_
        rw [hs]
        exact List.mem_cons_self _ _
      have hle := h _ hmem
      show (if score > COMBINED_SCORE_THRESHOLD then some best else none) = none
      rw [if_neg (not_lt.mpr hle)]
  · intro h
    unfold fuzzyStage
    rw [fuzzy_fold_fixed O qt _ h]

/-- Evaluation of the potential-match list for the C6 fixture: the single
stored key scores exactly `COMBINED_SCORE_THRESHOLD`. -/
theorem pmC6_eval :
    potentialMatches oracleSem none storeC6 "q" "UNKNOWN"
      = [("k0123456789", COMBINED_SCORE_THRESHOLD)] := by
  have hq : oracleSem.extractKeywords "q" = ["a"] := rfl
  have hk : oracleSem.extractKeywords (pyLower "k0123456789") = ["a", "b"] := rfl
  have hqt : determineQuestionType "k0123456789" = "UNKNOWN" := rfl
  have hl1 : ("q" : String).length = 1 := rfl
  have hl2 : ("k0123456789" : String).length = 11 := rfl
  have hd1 : (["a"] : List String).dedup.filter (fun k => k ∈ (["a", "b"] : List String))
      = ["a"] := rfl
  have hd2 : ((["a"] : List String) ++ ["a", "b"]).dedup = ["a", "b"] := rfl
  have hw1 : keywordWeight "a" = 1 := rfl
  have hw2 : keywordWeight "b" = 1 := rfl
  have hm1 : min (List.count "a" (["a"] : List String))
      (List.count "a" (["a", "b"] : List String)) = 1 := rfl
  have hm2 : max (List.count "a" (["a"] : List String))
      (List.count "a" (["a", "b"] : List String)) = 1 := rfl
  have hm3 : max (List.count "b" (["a"] : List String))
      (List.count "b" (["a", "b"] : List String)) = 1 := rfl
  have hsim : calcKeywordSimilarity ["a"] ["a", "b"] = 1/2 := by
    rw [calcKeywordSimilarity]
    rw [if_neg (by simp)]
    rw [hd1, hd2]
    simp only [List.map_cons, List.map_nil, List.sum_cons, List.sum_nil,
      hw1, hw2, hm1, hm2, hm3]
    norm_num
  have hsq : oracleSem.seqSim "q" (pyLower "k0123456789") = 5/6 := rfl
  have hadj : applyContextAdjustments oracleSem none
      (1/2 * KEYWORD_WEIGHT + 5/6 * STRING_WEIGHT)
      "q" "k0123456789" "UNKNOWN" = COMBINED_SCORE_THRESHOLD := by
    simp only [applyContextAdjustments, hqt, hl1, hl2]
    norm_num [truthyStr, oracleSem, min_def, max_def,
      KEYWORD_WEIGHT, STRING_WEIGHT, COMBINED_SCORE_THRESHOLD]
  have hcs : candidateScore oracleSem none ["a"] "q" "k0123456789" "UNKNOWN"
      = some COMBINED_SCORE_THRESHOLD := by
    show (if oracleSem.extractKeywords (pyLower "k0123456789") = [] ∨ (["a"] : List String) = []
        then (none : Option ℚ)
        else some (applyContextAdjustments oracleSem none
          (calcKeywordSimilarity ["a"] (oracleSem.extractKeywords (pyLower "k0123456789"))
              * KEYWORD_WEIGHT +
            oracleSem.seqSim "q" (pyLower "k0123456789") * STRING_WEIGHT)
          "q" "k0123456789" "UNKNOWN")) = some COMBINED_SCORE_THRESHOLD
    rw [hk, hsq]
    rw [if_neg (by simp)]
    rw [hsim, hadj]
  have hkeys : storeKeys storeC6 = ["k0123456789"] := rfl
  unfold potentialMatches
  rw [hkeys, List.filterMap_cons]
  simp only [hq, hcs]
  rw [if_pos (by norm_num [COMBINED_SCORE_THRESHOLD, KEYWORD_MATCH_THRESHOLD])]
  rfl

/-- Witness for C6: a store whose only record scores exactly 0.6 in the
semantic stage (hence is rejected), and an oracle whose ratio is exactly
0.8 everywhere (hence the fuzzy stage rejects). -/
theorem threshold_boundary_strict_witness :
    potentialMatches oracleSem none storeC6 "q" "UNKNOWN"
      = [("k0123456789", COMBINED_SCORE_THRESHOLD)] ∧
    semanticStage oracleSem none storeC6 "q" "UNKNOWN" = none ∧
    (∀ k ∈ storeKeys storeC6,
      oracleFuzz.seqSim "q" (pyLower k) ≤ FUZZY_MATCH_THRESHOLD) ∧
    fuzzyStage oracleFuzz storeC6 "q" = none :=
  ⟨pmC6_eval,
   (threshold_boundary_strict oracleSem none storeC6 "q" "UNKNOWN").1
     (by simp [pmC6_eval]),
   fun k _ => le_refl _,
   (threshold_boundary_strict oracleFuzz none storeC6 "q" "UNKNOWN").2
     (fun k _ => le_refl _)⟩

/-! ## Normalizer lemmas -/

/-- The accumulator loop of `clean_question_text` agrees with the
recursive first-occurrence filter `dedupNE`, for any accumulator and seen
set describing the same membership. -/
theorem foldl_unique_eq_dedupNE (ls : List String) :
    ∀ (acc seen : List String), (∀ x, x ∈ seen ↔ x ∈ acc) →
      ls.foldl (fun acc line => if line ≠ "" ∧ line ∉ acc then acc ++ [line] else acc) acc
        = acc ++ dedupNE seen ls := by
  induction ls with
  | nil =>
    intro acc seen _
    simp [dedupNE]
  | cons l t ih =>
    intro acc seen h
    rw [List.foldl_cons, dedupNE]
    by_cases he : l = ""
    · subst he
      rw [if_neg (by simp), if_pos (Or.inl rfl)]
      exact ih acc seen h
    · by_cases hm : l ∈ acc
      · rw [if_neg (by simp [hm]), if_pos (Or.inr ((h l).mpr hm))]
        exact ih acc seen h
      · rw [if_pos ⟨he, hm⟩, if_neg (by
          push_neg
          exact ⟨he, fun hs => hm ((h l).mp hs)⟩)]
        rw [ih (acc ++ [l]) (l :: seen) (by
          intro x
          have hx := h x
          simp only [List.mem_cons, List.mem_append, List.mem_singleton]
          tauto)]
        rw [List.append_assoc, List.singleton_append]

/-- The loop of `clean_question_text` keeps exactly the first occurrence of
every non-empty line. -/
theorem uniqueLines_eq_dedupNE (ls : List String) :
    uniqueLines ls = dedupNE [] ls := by
  have := foldl_unique_eq_dedupNE ls [] [] (by simp)
  simpa [uniqueLines] using this

/-- Evaluation of `clean_question_text` as a single first-occurrence
filter: the two-identical-lines special case and the general dedup branch
agree with `dedupNE`. -/
theorem clean_eq_dedupNE (q : String) :
    cleanQuestionText q = joinNl (dedupNE [] (splitNl q)) := by
  unfold cleanQuestionText
  by_cases hq : q = ""
  · rw [if_pos hq]
    subst hq
    rfl
  · rw [if_neg hq]
    cases hls : splitNl q with
    | nil =>
      show joinNl (uniqueLines []) = joinNl (dedupNE [] [])
      rw [uniqueLines_eq_dedupNE]
    | cons l0 rest =>
      cases rest with
      | nil =>
        show joinNl (uniqueLines [l0]) = joinNl (dedupNE [] [l0])
        rw [uniqueLines_eq_dedupNE]
      | cons l1 rest2 =>
        cases rest2 with
        | cons l2 rest3 =>
          show joinNl (uniqueLines (l0 :: l1 :: l2 :: rest3))
              = joinNl (dedupNE [] (l0 :: l1 :: l2 :: rest3))
          rw [uniqueLines_eq_dedupNE]
        | nil =>
          show (if l0 = l1 then l0 else joinNl (uniqueLines [l0, l1]))
              = joinNl (dedupNE [] [l0, l1])
          by_cases he : l0 = l1
          · subst he
            rw [if_pos rfl]
            by_cases h0 : l0 = ""
            · subst h0
              rfl
            · rw [dedupNE, if_neg (by simp [h0]), dedupNE,
                if_pos (Or.inr (List.mem_singleton.mpr rfl))]
              rfl
          · rw [if_neg he, uniqueLines_eq_dedupNE]

/-- C3 counterexample: the Question Normalizer drops the empty middle line
of `"a\n\nb"`, whereas the claim says empty lines are kept. -/
theorem clean_empty_lines_cex :
    cleanQuestionText "a\n\nb" = "a\nb" ∧ ("a\nb" : String) ≠ "a\n\nb" :=
  ⟨by decide, by decide⟩

/-- C3 amended: `clean_question_text` splits on newlines and keeps a line
iff it is non-empty and not a byte-for-byte repeat of an earlier kept
line - so empty lines are removed, not kept - in first-occurrence order,
rejoined with newlines; the two-identical-lines special case agrees with
this rule. -/
theorem clean_question_text_dedup_spec (q : String) :
    cleanQuestionText q = joinNl (dedupNE [] (splitNl q)) :=
  clean_eq_dedupNE q

/-! ## Character and idempotence lemmas -/

/-- Char.ofNat round-trips on valid code points. -/
theorem char_ofNat_toNat (m : Nat) (h : m.isValidChar) : (Char.ofNat m).toNat = m := by
  unfold Char.ofNat
  rw [dif_pos h]
  rfl

/-- Lower-casing a character twice is the same as lower-casing it once. -/
theorem lowerChar_idem (c : Char) : lowerChar (lowerChar c) = lowerChar c := by
  unfold lowerChar Char.toLower
  by_cases h : c.toNat ≥ 65 ∧ c.toNat ≤ 90
  · rw [if_pos h]
    have hv : (c.toNat + 32).isValidChar := by
      unfold Nat.isValidChar
      left
      omega
    rw [char_ofNat_toNat _ hv]
    rw [if_neg (by omega)]
  · rw [if_neg h, if_neg h]

/-- Model of Python `str.lower` is idempotent. -/
theorem pyLower_idem (s : String) : pyLower (pyLower s) = pyLower s := by
  show String.mk ((s.data.map lowerChar).map lowerChar) = String.mk (s.data.map lowerChar)
  rw [List.map_map]
  exact congrArg String.mk (List.map_congr_left (fun a _ => lowerChar_idem a))

/-- No character with code point 65 or above is Python whitespace. -/
theorem isPyWs_false_of_ge (x : Char) (h1 : 65 ≤ x.toNat) : isPyWs x = false := by
  have hni : ∀ d : Char, x.toNat ≠ d.toNat → decide (x = d) = false := fun d hd =>
    decide_eq_false (fun he => hd (he ▸ rfl))
  unfold isPyWs
  rw [hni ' ' (by rw [show (' ').toNat = 32 from rfl]; omega),
      hni '\t' (by rw [show ('\t').toNat = 9 from rfl]; omega),
      hni '\n' (by rw [show ('\n').toNat = 10 from rfl]; omega),
      hni '\r' (by rw [show ('\r').toNat = 13 from rfl]; omega),
      hni '\x0b' (by rw [show ('\x0b').toNat = 11 from rfl]; omega),
      hni '\x0c' (by rw [show ('\x0c').toNat = 12 from rfl]; omega)]
  rfl

/-- Lower-casing does not create or destroy whitespace. -/
theorem isPyWs_lowerChar (c : Char) : isPyWs (lowerChar c) = isPyWs c := by
  unfold lowerChar Char.toLower
  by_cases h : c.toNat ≥ 65 ∧ c.toNat ≤ 90
  · rw [if_pos h]
    have hv : (c.toNat + 32).isValidChar := by
      unfold Nat.isValidChar
      left
      omega
    rw [isPyWs_false_of_ge _ (by rw [char_ofNat_toNat _ hv]; omega),
        isPyWs_false_of_ge c (by omega)]
  · rw [if_neg h]

/-- `str.lower` and `str.strip` commute. -/
theorem pyLower_pyStrip (s : String) : pyLower (pyStrip s) = pyStrip (pyLower s) := by
  show String.mk ((pyStripC s.data).map lowerChar) = String.mk (pyStripC (s.data.map lowerChar))
  congr 1
  have hp : (isPyWs ∘ lowerChar) = isPyWs := funext isPyWs_lowerChar
  unfold pyStripC
  simp only [List.dropWhile_map, hp, ← List.map_reverse]

/-- Python split never yields an empty list of lines. -/
theorem splitNlC_ne_nil (d : List Char) : splitNlC d ≠ [] := by
  cases d with
  | nil => simp [splitNlC]
  | cons c cs =>
    unfold splitNlC
    by_cases h : c = '\n'
    · simp [h]
    · rw [if_neg h]
      cases splitNlC cs with
      | nil => simp
      | cons l ls => simp

/-- Every character of a line of the split came from the input. -/
theorem mem_splitNlC (d : List Char) : ∀ u ∈ splitNlC d, ∀ c ∈ u, c ∈ d := by
  induction d with
  | nil =>
    intro u hu c hc
    simp [splitNlC] at hu
    subst hu
    simp at hc
  | cons a as ih =>
    intro u hu c hc
    unfold splitNlC at hu
    by_cases h : a = '\n'
    · rw [if_pos h] at hu
      rcases List.mem_cons.mp hu with rfl | hu2
      · simp at hc
      · exact List.mem_cons_of_mem a (ih u hu2 c hc)
    · rw [if_neg h] at hu
      cases hsp : splitNlC as with
      | nil => exact absurd hsp (splitNlC_ne_nil as)
      | cons l ls =>
        rw [hsp] at hu
        rcases List.mem_cons.mp hu with rfl | hu2
        · rcases List.mem_cons.mp hc with rfl | hc2
          · exact List.mem_cons_self _ _
          · exact List.mem_cons_of_mem a
              (ih l (by rw [hsp]; exact List.mem_cons_self _ _) c hc2)
        · exact List.mem_cons_of_mem a
            (ih u (by rw [hsp]; exact List.mem_cons_of_mem l hu2) c hc)

/-- No line of the split contains a newline. -/
theorem splitNlC_no_nl (d : List Char) : ∀ u ∈ splitNlC d, '\n' ∉ u := by
  induction d with
  | nil =>
    intro u hu
    simp [splitNlC] at hu
    subst hu
    simp
  | cons a as ih =>
    intro u hu
    unfold splitNlC at hu
    by_cases h : a = '\n'
    · rw [if_pos h] at hu
      rcases List.mem_cons.mp hu with rfl | hu2
      · simp
      · exact ih u hu2
    · rw [if_neg h] at hu
      cases hsp : splitNlC as with
      | nil => exact absurd hsp (splitNlC_ne_nil as)
      | cons l ls =>
        rw [hsp] at hu
        rcases List.mem_cons.mp hu with rfl | hu2
        · intro hmem
          rcases List.mem_cons.mp hmem with he | hmem2
          · exact h he.symm
          · exact ih l (by rw [hsp]; exact List.mem_cons_self _ _) hmem2
        · exact ih u (by rw [hsp]; exact List.mem_cons_of_mem l hu2)

/-- Splitting after prepending a newline-free block extends the first
line. -/
theorem splitNlC_append (l : List Char) (hl : '\n' ∉ l) :
    ∀ (t h0 : List Char) (hs : List (List Char)), splitNlC t = h0 :: hs →
      splitNlC (l ++ t) = (l ++ h0) :: hs := by
  induction l with
  | nil =>
    intro t h0 hs h
    simpa using h
  | cons a as ih =>
    intro t h0 hs h
    have ha : a ≠ '\n' := fun he => hl (he ▸ List.mem_cons_self a as)
    show splitNlC (a :: (as ++ t)) = (a :: (as ++ h0)) :: hs
    unfold splitNlC
    rw [if_neg ha]
    rw [ih (fun hm => hl (List.mem_cons_of_mem a hm)) t h0 hs h]

/-- Splitting a newline-free block yields that single line. -/
theorem splitNlC_single (l : List Char) (hl : '\n' ∉ l) : splitNlC l = [l] := by
  have := splitNlC_append l hl [] [] [] rfl
  simpa using this

/-- Splitting is a left inverse of joining for non-empty lists of
newline-free lines. -/
theorem splitNlC_joinNlC (ls : List (List Char)) :
    ls ≠ [] → (∀ u ∈ ls, '\n' ∉ u) → splitNlC (joinNlC ls) = ls := by
  induction ls with
  | nil =>
    intro h _
    exact absurd rfl h
  | cons l rest ih =>
    intro _ h2
    cases rest with
    | nil =>
      show splitNlC l = [l]
      exact splitNlC_single l (h2 l (List.mem_cons_self _ _))
    | cons l2 rest2 =>
      show splitNlC (l ++ '\n' :: joinNlC (l2 :: rest2)) = l :: l2 :: rest2
      have hrec := ih (by simp) (fun u hu => h2 u (List.mem_cons_of_mem l hu))
      have hstep : splitNlC ('\n' :: joinNlC (l2 :: rest2)) = [] :: l2 :: rest2 := by
        unfold splitNlC
        rw [if_pos rfl, hrec]
      have := splitNlC_append l (h2 l (List.mem_cons_self _ _))
        ('\n' :: joinNlC (l2 :: rest2)) [] (l2 :: rest2) hstep
      simpa using this

/-- Every character of a join is a newline or comes from some line. -/
theorem mem_joinNlC (ls : List (List Char)) :
    ∀ c ∈ joinNlC ls, c = '\n' ∨ ∃ u ∈ ls, c ∈ u := by
  induction ls with
  | nil =>
    intro c hc
    simp [joinNlC] at hc
  | cons l rest ih =>
    intro c hc
    cases rest with
    | nil =>
      right
      exact ⟨l, List.mem_cons_self _ _, by simpa [joinNlC] using hc⟩
    | cons l2 rest2 =>
      have hc2 : c ∈ l ++ '\n' :: joinNlC (l2 :: rest2) := hc
      rcases List.mem_append.mp hc2 with h | h
      · exact Or.inr ⟨l, List.mem_cons_self _ _, h⟩
      · rcases List.mem_cons.mp h with rfl | h2
        · exact Or.inl rfl
        · rcases ih c h2 with h3 | ⟨u, hu, hcu⟩
          · exact Or.inl h3
          · exact Or.inr ⟨u, List.mem_cons_of_mem l hu, hcu⟩

/-- A map by a function fixing all members is the identity. -/
theorem map_eq_self_of_fixed {α : Type} (f : α → α) (l : List α)
    (h : ∀ a ∈ l, f a = a) : l.map f = l :=
  (List.map_congr_left (show ∀ a ∈ l, f a = id a from h)).trans (List.map_id l)

/-- Conversely, a map equal to the identity fixes all members. -/
theorem fixed_of_map_eq_self {α : Type} (f : α → α) (l : List α)
    (h : l.map f = l) : ∀ a ∈ l, f a = a := by
  induction l with
  | nil =>
    intro a ha
    simp at ha
  | cons x xs ih =>
    intro a ha
    rw [List.map_cons] at h
    injection h with h1 h2
    rcases List.mem_cons.mp ha with rfl | ha2
    · exact h1
    · exact ih h2 a ha2

/-- Kept lines are lines of the input. -/
theorem mem_of_mem_dedupNE : ∀ (seen ls : List String) (x : String),
    x ∈ dedupNE seen ls → x ∈ ls := by
  intro seen ls
  induction ls generalizing seen with
  | nil =>
    intro x hx
    simp [dedupNE] at hx
  | cons l t ih =>
    intro x hx
    rw [dedupNE] at hx
    by_cases hc : l = "" ∨ l ∈ seen
    · rw [if_pos hc] at hx
      exact List.mem_cons_of_mem l (ih seen x hx)
    · rw [if_neg hc] at hx
      rcases List.mem_cons.mp hx with rfl | hx2
      · exact List.mem_cons_self _ _
      · exact List.mem_cons_of_mem l (ih (l :: seen) x hx2)

/-- Kept lines were never seen before. -/
theorem not_mem_seen_of_mem_dedupNE : ∀ (seen ls : List String) (x : String),
    x ∈ dedupNE seen ls → x ∉ seen := by
  intro seen ls
  induction ls generalizing seen with
  | nil =>
    intro x hx
    simp [dedupNE] at hx
  | cons l t ih =>
    intro x hx
    rw [dedupNE] at hx
    by_cases hc : l = "" ∨ l ∈ seen
    · rw [if_pos hc] at hx
      exact ih seen x hx
    · rw [if_neg hc] at hx
      rcases List.mem_cons.mp hx with rfl | hx2
      · exact fun hs => hc (Or.inr hs)
      · exact fun hs => ih (l :: seen) x hx2 (List.mem_cons_of_mem l hs)

/-- The kept lines are pairwise distinct. -/
theorem dedupNE_nodup : ∀ (seen ls : List String), (dedupNE seen ls).Nodup := by
  intro seen ls
  induction ls generalizing seen with
  | nil => simp [dedupNE]
  | cons l t ih =>
    rw [dedupNE]
    by_cases hc : l = "" ∨ l ∈ seen
    · rw [if_pos hc]
      exact ih seen
    · rw [if_neg hc]
      refine List.Nodup.cons ?_ (ih (l :: seen))
      intro hmem
      exact not_mem_seen_of_mem_dedupNE (l :: seen) t l hmem (List.mem_cons_self _ _)

/-- No kept line is empty. -/
theorem dedupNE_no_empty : ∀ (seen ls : List String), ("" : String) ∉ dedupNE seen ls := by
  intro seen ls
  induction ls generalizing seen with
  | nil => simp [dedupNE]
  | cons l t ih =>
    rw [dedupNE]
    by_cases hc : l = "" ∨ l ∈ seen
    · rw [if_pos hc]
      exact ih seen
    · rw [if_neg hc]
      intro hmem
      rcases List.mem_cons.mp hmem with he | h2
      · exact hc (Or.inl he.symm)
      · exact ih (l :: seen) h2

/-- A duplicate-free list of non-empty unseen lines is a fixpoint. -/
theorem dedupNE_fixpoint : ∀ (seen ls : List String), ls.Nodup →
    ("" : String) ∉ ls → (∀ x ∈ ls, x ∉ seen) → dedupNE seen ls = ls := by
  intro seen ls
  induction ls generalizing seen with
  | nil =>
    intro _ _ _
    rfl
  | cons l t ih =>
    intro hnd hne hseen
    rw [dedupNE]
    rw [if_neg (by
      push_neg
      exact ⟨fun he => hne (he ▸ List.mem_cons_self l t),
        hseen l (List.mem_cons_self _ _)⟩)]
    rw [ih (l :: seen) (List.Nodup.of_cons hnd)
      (fun hm => hne (List.mem_cons_of_mem l hm))
      (fun x hx => by
        intro hmem
        rcases List.mem_cons.mp hmem with rfl | h2
        · exact (List.nodup_cons.mp hnd).1 hx
        · exact hseen x (List.mem_cons_of_mem l hx) h2)]

/-- The Normalizer's output is already lower-case when its input is. -/
theorem pyLower_clean_fixed (s : String) (h : pyLower s = s) :
    pyLower (cleanQuestionText s) = cleanQuestionText s := by
  rw [clean_eq_dedupNE]
  have hdata : s.data.map lowerChar = s.data := congrArg String.data h
  have hfix : ∀ c ∈ s.data, lowerChar c = c := fixed_of_map_eq_self _ _ hdata
  show String.mk ((joinNlC ((dedupNE [] (splitNl s)).map String.data)).map lowerChar)
      = joinNl (dedupNE [] (splitNl s))
  congr 1
  apply map_eq_self_of_fixed
  intro c hc
  rcases mem_joinNlC _ c hc with rfl | ⟨u, hu, hcu⟩
  · rfl
  · rcases List.mem_map.mp hu with ⟨ustr, hustr, rfl⟩
    have h1 : ustr ∈ splitNl s := mem_of_mem_dedupNE _ _ _ hustr
    rcases List.mem_map.mp h1 with ⟨u0, hu0, rfl⟩
    exact hfix c (mem_splitNlC s.data u0 hu0 c (by simpa using hcu))

/-- The Normalizer is idempotent. -/
theorem clean_idem (s : String) :
    cleanQuestionText (cleanQuestionText s) = cleanQuestionText s := by
  by_cases hy : cleanQuestionText s = ""
  · rw [hy]
    rfl
  · have hy2 : cleanQuestionText s = joinNl (dedupNE [] (splitNl s)) := clean_eq_dedupNE s
    have hne : dedupNE [] (splitNl s) ≠ [] := by
      intro h0
      apply hy
      rw [hy2, h0]
      rfl
    have hnl : ∀ u ∈ dedupNE [] (splitNl s), '\n' ∉ u.data := by
      intro u hu
      have h1 : u ∈ splitNl s := mem_of_mem_dedupNE _ _ _ hu
      rcases List.mem_map.mp h1 with ⟨u0, hu0, rfl⟩
      simpa using splitNlC_no_nl s.data u0 hu0
    have hsplit : splitNl (joinNl (dedupNE [] (splitNl s))) = dedupNE [] (splitNl s) := by
      show (splitNlC (joinNlC ((dedupNE [] (splitNl s)).map String.data))).map String.mk
          = dedupNE [] (splitNl s)
      rw [splitNlC_joinNlC]
      · rw [List.map_map]
        exact map_eq_self_of_fixed _ _ (fun u _ => rfl)
      · simpa using hne
      · intro v hv
        rcases List.mem_map.mp hv with ⟨u, hu, rfl⟩
        exact hnl u hu
    rw [hy2, clean_eq_dedupNE (joinNl (dedupNE [] (splitNl s))), hsplit]
    rw [dedupNE_fixpoint [] (dedupNE [] (splitNl s))
      (dedupNE_nodup _ _) (dedupNE_no_empty _ _) (by simp)]

/-- Joining is a left inverse of splitting, unconditionally. -/
theorem joinNlC_splitNlC (d : List Char) : joinNlC (splitNlC d) = d := by
  induction d with
  | nil => rfl
  | cons c cs ih =>
    unfold splitNlC
    by_cases h : c = '\n'
    · rw [if_pos h]
      subst h
      cases hsp : splitNlC cs with
      | nil => exact absurd hsp (splitNlC_ne_nil cs)
      | cons l ls =>
        have hih : joinNlC (l :: ls) = cs := by
          rw [← hsp]
          exact ih
        show [] ++ '\n' :: joinNlC (l :: ls) = '\n' :: cs
        rw [List.nil_append, hih]
    · rw [if_neg h]
      cases hsp : splitNlC cs with
      | nil => exact absurd hsp (splitNlC_ne_nil cs)
      | cons l ls =>
        have hih : joinNlC (l :: ls) = cs := by
          rw [← hsp]
          exact ih
        cases ls with
        | nil =>
          show c :: l = c :: cs
          have he : l = cs := hih
          rw [he]
        | cons l2 ls2 =>
          show (c :: l) ++ '\n' :: joinNlC (l2 :: ls2) = c :: cs
          have he : l ++ '\n' :: joinNlC (l2 :: ls2) = cs := hih
          rw [List.cons_append, he]

/-- String-level: rejoining the split lines recovers the string. -/
theorem joinNl_splitNl (s : String) : joinNl (splitNl s) = s := by
  show String.mk (joinNlC (((splitNlC s.data).map String.mk).map String.data)) = s
  rw [List.map_map,
    show (String.data ∘ String.mk) = id from funext (fun l => rfl),
    List.map_id, joinNlC_splitNlC]

/-- First-occurrence filtering selects a sublist of the input lines. -/
theorem dedupNE_sublist : ∀ (seen ls : List String), List.Sublist (dedupNE seen ls) ls := by
  intro seen ls
  induction ls generalizing seen with
  | nil => simp [dedupNE]
  | cons l t ih =>
    rw [dedupNE]
    by_cases hc : l = "" ∨ l ∈ seen
    · rw [if_pos hc]
      exact List.Sublist.cons l (ih seen)
    · rw [if_neg hc]
      exact List.Sublist.cons₂ l (ih (l :: seen))

/-- Sums of natural numbers shrink along sublists. -/
theorem sum_le_of_sublist {xs ys : List Nat} (h : List.Sublist xs ys) :
    xs.sum ≤ ys.sum := by
  induction h with
  | slnil => exact le_refl _
  | cons a h ih =>
    simp only [List.sum_cons]
    omega
  | cons₂ a h ih =>
    simp only [List.sum_cons]
    omega

/-- Length of a newline-join: content plus one separator per gap. -/
theorem joinNlC_length : ∀ (ls : List (List Char)), ls ≠ [] →
    (joinNlC ls).length + 1 = (ls.map List.length).sum + ls.length := by
  intro ls
  induction ls with
  | nil =>
    intro h
    exact absurd rfl h
  | cons l rest ih =>
    intro _
    cases rest with
    | nil => simp [joinNlC]
    | cons l2 rest2 =>
      show (l ++ '\n' :: joinNlC (l2 :: rest2)).length + 1 = _
      have hr := ih (by simp)
      simp only [List.length_append, List.length_cons, List.map_cons, List.sum_cons] at hr ⊢
      omega

/-- Joining fewer lines never yields a longer string. -/
theorem joinNlC_length_mono {as bs : List (List Char)} (h : List.Sublist as bs) :
    (joinNlC as).length ≤ (joinNlC bs).length := by
  cases has : as with
  | nil => simp [joinNlC]
  | cons a as2 =>
    have hbs : bs ≠ [] := by
      intro h0
      subst h0
      rw [has] at h
      simp at h
    have h1 := joinNlC_length as (by rw [has]; simp)
    have h2 := joinNlC_length bs hbs
    have hsum : (as.map List.length).sum ≤ (bs.map List.length).sum :=
      sum_le_of_sublist (h.map List.length)
    have hlen : as.length ≤ bs.length := h.length_le
    rw [← has]
    omega

/-- The Normalizer never lengthens its input. -/
theorem clean_length_le (s : String) : (cleanQuestionText s).length ≤ s.length := by
  rw [clean_eq_dedupNE]
  conv_rhs => rw [← joinNl_splitNl s]
  show (joinNlC ((dedupNE [] (splitNl s)).map String.data)).length
      ≤ (joinNlC ((splitNl s).map String.data)).length
  exact joinNlC_length_mono ((dedupNE_sublist [] (splitNl s)).map String.data)

/-- A dropWhile that preserves length dropped nothing. -/
theorem dropWhile_eq_of_length {p : Char → Bool} : ∀ (l : List Char),
    (List.dropWhile p l).length = l.length → List.dropWhile p l = l := by
  intro l
  induction l with
  | nil =>
    intro _
    rfl
  | cons c t _ =>
    intro hlen
    rw [List.dropWhile_cons] at hlen ⊢
    by_cases h : p c
    · rw [if_pos h] at hlen
      have hle := (List.dropWhile_sublist (l := t) p).length_le
      rw [List.length_cons] at hlen
      exact absurd hlen (by omega)
    · rw [if_neg h]

/-- A string changed by `strip` is strictly shortened by it. -/
theorem pyStrip_length_lt (s : String) (h : pyStrip s ≠ s) :
    (pyStrip s).length < s.length := by
  have hd : pyStripC s.data ≠ s.data := by
    intro h0
    apply h
    show String.mk (pyStripC s.data) = s
    rw [h0]
  show (pyStripC s.data).length < s.data.length
  unfold pyStripC at hd ⊢
  have l1 : (s.data.dropWhile isPyWs).length ≤ s.data.length :=
    (List.dropWhile_sublist isPyWs).length_le
  have l2 : ((s.data.dropWhile isPyWs).reverse.dropWhile isPyWs).length
      ≤ (s.data.dropWhile isPyWs).reverse.length :=
    (List.dropWhile_sublist isPyWs).length_le
  have l3 := List.length_reverse (s.data.dropWhile isPyWs)
  have l4 := List.length_reverse ((s.data.dropWhile isPyWs).reverse.dropWhile isPyWs)
  by_contra hcon
  push_neg at hcon
  have e1 : (s.data.dropWhile isPyWs).length = s.data.length := by omega
  have e2 : ((s.data.dropWhile isPyWs).reverse.dropWhile isPyWs).length
      = (s.data.dropWhile isPyWs).reverse.length := by omega
  have ea : s.data.dropWhile isPyWs = s.data := dropWhile_eq_of_length s.data e1
  have eb : (s.data.dropWhile isPyWs).reverse.dropWhile isPyWs
      = (s.data.dropWhile isPyWs).reverse := dropWhile_eq_of_length _ e2
  apply hd
  rw [eb, List.reverse_reverse, ea]

/-- If-direction: normalization is idempotent on inputs whose normalized
form is already stripped. -/
theorem normalize_idempotent_on_trimmed (x : String)
    (h : pyStrip (normalizeText x) = normalizeText x) :
    normalizeText (normalizeText x) = normalizeText x := by
  have hx2 : pyLower (pyStrip (pyLower x)) = pyStrip (pyLower x) := by
    rw [pyLower_pyStrip, pyLower_idem]
  have hy : pyLower (normalizeText x) = normalizeText x := pyLower_clean_fixed _ hx2
  show cleanQuestionText (pyStrip (pyLower (normalizeText x))) = normalizeText x
  rw [hy, h]
  exact clean_idem (pyStrip (pyLower x))

/-- Only-if direction: when the normalized form still carries outer
whitespace, the second pass strips it and strictly shortens the string, so
normalization is not idempotent there. -/
theorem normalize_not_idempotent_of_not_trimmed (x : String)
    (h : pyStrip (normalizeText x) ≠ normalizeText x) :
    normalizeText (normalizeText x) ≠ normalizeText x := by
  have hx2 : pyLower (pyStrip (pyLower x)) = pyStrip (pyLower x) := by
    rw [pyLower_pyStrip, pyLower_idem]
  have hy : pyLower (normalizeText x) = normalizeText x := pyLower_clean_fixed _ hx2
  intro heq
  have hlt : (normalizeText (normalizeText x)).length < (normalizeText x).length := by
    show (cleanQuestionText (pyStrip (pyLower (normalizeText x)))).length
        < (normalizeText x).length
    rw [hy]
    exact lt_of_le_of_lt (clean_length_le _) (pyStrip_length_lt _ h)
  rw [heq] at hlt
  exact lt_irrefl _ hlt

/-- C9 counterexample: normalizing `"a\nc \na"` yields `"a\nc "`, whose
second normalization strips the newly exposed trailing space, so the
composite normalizer is not idempotent. -/
theorem normalize_not_idempotent_cex :
    normalizeText "a\nc \na" = "a\nc " ∧
    normalizeText (normalizeText "a\nc \na") = "a\nc" ∧
    normalizeText (normalizeText "a\nc \na") ≠ normalizeText "a\nc \na" :=
  ⟨by decide, by decide, by decide⟩

/-- C9 amended: the composite key normalization (lower-case, strip,
`clean_question_text`) is idempotent on an input exactly when its
normalized form is already stripped; otherwise a second application
strictly shortens it, because deduplication can expose trailing whitespace
(see the counterexample). `clean_question_text` itself is always
idempotent (`clean_idem`). -/
theorem normalize_idempotent_iff_trimmed (x : String) :
    normalizeText (normalizeText x) = normalizeText x ↔
      pyStrip (normalizeText x) = normalizeText x := by
  constructor
  · intro h
    by_contra hns
    exact normalize_not_idempotent_of_not_trimmed x hns h
  · exact normalize_idempotent_on_trimmed x

end AutoApp
